import Mathlib

/-!
Verification of the `fix-date-parsing.py` patcher script.

The script reads a target file, splits its content on the newline
character, scans for the first line that contains a hard-coded literal
(Python's `in` operator — substring containment), and if found inserts
two fixed lines before it and overwrites the (shifted) matched line with
a replacement literal; the line list is then rejoined with newlines and
written back.  Success/failure is a boolean, mirrored as process exit
code 0/1.

Text is modelled as `List Char`; a file's decoded content is one
`List Char`, a line list is `List (List Char)`.  Python's text-mode read
performs universal-newline translation, modelled by `pyDecode`.
-/

/-- The needle of the scan: the literal of `if '...' in line` at line 19
of the script. -/
def matchLiteral : List Char :=
  "const monthNum = months[month.toLowerCase()] || '01';".toList

/-- First inserted line (`lines.insert(i, ...)`, line 21 of the script),
with its six-space indentation. -/
def insertionLiteral1 : List Char :=
  "      // Clean up potential spacing in month names".toList

/-- Second inserted line (`lines.insert(i + 1, ...)`, line 22), with its
six-space indentation.  The Python source spells the regex with an escaped
backslash, so the runtime string holds a single backslash. -/
def insertionLiteral2 : List Char :=
  "      month = month.replace(/\\s+/g, '').toLowerCase();".toList

/-- Replacement for the matched line (`lines[i + 2] = ...`, line 24). -/
def replacementLiteral : List Char :=
  "      const monthNum = months[month] || '01';".toList

/-- Python's substring test `needle in hay` on text, as a scan over all
suffixes of the haystack. -/
def pyContains (needle : List Char) : List Char → Bool
  | [] => needle.isEmpty
  | c :: rest => needle.isPrefixOf (c :: rest) || pyContains needle rest

/-- `content.split('\n')`: split on every newline, keeping empty pieces;
the result is never empty (splitting the empty string gives `[[]]`). -/
def splitLines : List Char → List (List Char)
  | [] => [[]]
  | c :: rest =>
    if c = '\n' then [] :: splitLines rest
    else
      match splitLines rest with
      | [] => [[c]]
      | l :: ls => (c :: l) :: ls

/-- `'\n'.join(lines)`: interleave a single newline between the lines. -/
def joinLines : List (List Char) → List Char
  | [] => []
  | [l] => l
  | l :: ls => l ++ '\n' :: joinLines ls

/-- The index search of the `for i, line in enumerate(lines)` loop at
line 18 of the script: first index whose line passes the `in` test. -/
def findMatchIdx : List (List Char) → Option Nat
  | [] => none
  | l :: ls =>
    if pyContains matchLiteral l then some 0
    else (findMatchIdx ls).map (· + 1)

/-- The scan-and-patch phase (lines 18–25 of the script): at the first
matching index `i`, insert the two new lines at `i` and `i + 1`, then
overwrite index `i + 2` (the original matched line, shifted by the two
insertions); without a match the list is untouched. -/
def patchLines (lines : List (List Char)) : List (List Char) :=
  match findMatchIdx lines with
  | none => lines
  | some i =>
    (((lines.insertIdx i insertionLiteral1).insertIdx (i + 1)
        insertionLiteral2).set (i + 2) replacementLiteral)

/-- Full in-memory transformation of a decoded file content:
split, scan-and-patch, rejoin. -/
def rewriteContent (content : List Char) : List Char :=
  joinLines (patchLines (splitLines content))

/-- Universal-newline translation performed by Python's text-mode read:
`"\r\n"` and a lone `'\r'` both decode to `'\n'`. -/
def pyDecode : List Char → List Char
  | [] => []
  | '\r' :: '\n' :: rest => '\n' :: pyDecode rest
  | '\r' :: rest => '\n' :: pyDecode rest
  | c :: rest => c :: pyDecode rest

/-- What the script leaves on disk, as a function of the raw bytes it
found there: text-mode read decodes, the patch rewrites, text-mode write
on a POSIX host emits `'\n'` unchanged. -/
def rewriteRaw (raw : List Char) : List Char :=
  rewriteContent (pyDecode raw)

/-!
## World model

The script touches one hard-coded path.  A `World` records what the
script can observe of it: `file` is the decoded content an open-for-read
would deliver (`none` when the open raises — missing file or permission
denied), `readErr` the message of that exception, and `writeFault` the
message of the exception the write would raise (`none`: the write
succeeds).  The `try`/`except` of the script catches every such fault,
prints a message and returns `False`; otherwise it prints a success line
and returns `True`.
-/

structure World where
  file : Option (List Char)
  readErr : List Char
  writeFault : Option (List Char)
deriving DecidableEq, Repr

structure RunResult where
  world : World
  ret : Bool
  printed : List Char
deriving DecidableEq, Repr

/-- The success line printed at line 31 of the script. -/
def successMessage : List Char :=
  "Successfully updated the date parsing logic in merge-stamp.js".toList

/-- The error line of the `except` handler (line 35 of the script):
a fixed human-readable context followed by the exception's message. -/
def errorMessageOf (e : List Char) : List Char :=
  "Error updating file: ".toList ++ e

/-- The whole `fix_date_parsing` routine over a `World`.  A read fault
aborts before any write is attempted (the world is untouched); after a
successful read the content is split, patched and rejoined, and the
write either faults (the model keeps the previous on-disk content; the
script makes no promise about it and no theorem below relies on it) or
stores the rewritten text.  The returned boolean mirrors the script's
`return True` / `return False`. -/
def fix_date_parsing (w : World) : RunResult :=
  match w.file with
  | none => { world := w, ret := false, printed := errorMessageOf w.readErr }
  | some content =>
    match w.writeFault with
    | some e => { world := w, ret := false, printed := errorMessageOf e }
    | none =>
      { world := { w with file := some (rewriteContent content) },
        ret := true,
        printed := successMessage }

/-- The `__main__` block: `sys.exit(0 if success else 1)`. -/
def mainExitCode (w : World) : Nat :=
  if (fix_date_parsing w).ret then 0 else 1

/-! ## Split/join lemmas -/

theorem splitLines_ne_nil (l : List Char) : splitLines l ≠ [] := by
  cases l with
  | nil => simp [splitLines]
  | cons c rest =>
    simp only [splitLines]
    split
    · simp
    · cases h : splitLines rest <;> simp

theorem joinLines_cons_cons (c : Char) (l : List Char) (ls : List (List Char)) :
    joinLines ((c :: l) :: ls) = c :: joinLines (l :: ls) := by
  cases ls <;> simp [joinLines]

theorem joinLines_splitLines (l : List Char) : joinLines (splitLines l) = l := by
  induction l with
  | nil => simp [splitLines, joinLines]
  | cons c rest ih =>
    simp only [splitLines]
    by_cases hc : c = '\n'
    · subst hc
      simp only [if_pos rfl]
      rcases hsp : splitLines rest with _ | ⟨l', ls'⟩
      · exact absurd hsp (splitLines_ne_nil rest)
      · rw [hsp] at ih
        simp [joinLines, ih]
    · simp only [if_neg hc]
      rcases hsp : splitLines rest with _ | ⟨l', ls'⟩
      · exact absurd hsp (splitLines_ne_nil rest)
      · rw [hsp] at ih
        rw [joinLines_cons_cons, ih]

theorem splitLines_no_newline (l : List Char) (h : '\n' ∉ l) : splitLines l = [l] := by
  induction l with
  | nil => simp [splitLines]
  | cons c rest ih =>
    have hc : c ≠ '\n' := fun he => h (he ▸ List.mem_cons_self c rest)
    have hrest : '\n' ∉ rest := fun hm => h (List.mem_cons_of_mem c hm)
    simp only [splitLines, if_neg hc, ih hrest]

theorem splitLines_append_newline (l t : List Char) (h : '\n' ∉ l) :
    splitLines (l ++ '\n' :: t) = l :: splitLines t := by
  induction l with
  | nil => simp [splitLines]
  | cons c rest ih =>
    have hc : c ≠ '\n' := fun he => h (he ▸ List.mem_cons_self c rest)
    have hrest : '\n' ∉ rest := fun hm => h (List.mem_cons_of_mem c hm)
    simp only [List.cons_append, splitLines, if_neg hc, List.append_eq, ih hrest]

theorem mem_splitLines_not_newline (l : List Char) :
    ∀ s ∈ splitLines l, '\n' ∉ s := by
  induction l with
  | nil =>
    intro s hs
    simp [splitLines] at hs
    simp [hs]
  | cons c rest ih =>
    intro s hs
    simp only [splitLines] at hs
    by_cases hc : c = '\n'
    · rw [if_pos hc] at hs
      rcases List.mem_cons.mp hs with h | h
      · simp [h]
      · exact ih s h
    · rw [if_neg hc] at hs
      rcases hsp : splitLines rest with _ | ⟨l', ls'⟩
      · exact absurd hsp (splitLines_ne_nil rest)
      · rw [hsp] at hs
        rcases List.mem_cons.mp hs with h | h
        · subst h
          intro hmem
          rcases List.mem_cons.mp hmem with h | h
          · exact hc h.symm
          · exact ih l' (hsp ▸ List.mem_cons_self l' ls') h
        · exact ih s (hsp ▸ List.mem_cons_of_mem l' h)

theorem splitLines_joinLines (ls : List (List Char)) (hne : ls ≠ [])
    (hnl : ∀ s ∈ ls, '\n' ∉ s) : splitLines (joinLines ls) = ls := by
  induction ls with
  | nil => exact absurd rfl hne
  | cons l ls ih =>
    cases ls with
    | nil =>
      simp only [joinLines]
      exact splitLines_no_newline l (hnl l (List.mem_cons_self l []))
    | cons l' ls' =>
      have h1 : '\n' ∉ l := hnl l (List.mem_cons_self l (l' :: ls'))
      have h2 : ∀ s ∈ l' :: ls', '\n' ∉ s :=
        fun s hs => hnl s (List.mem_cons_of_mem l hs)
      simp only [joinLines]
      rw [splitLines_append_newline _ _ h1, ih (by simp) h2]

/-! ## Scan and patch lemmas -/

theorem findMatchIdx_lt_length (ls : List (List Char)) (i : Nat)
    (h : findMatchIdx ls = some i) : i < ls.length := by
  induction ls generalizing i with
  | nil => simp [findMatchIdx] at h
  | cons l ls ih =>
    simp only [findMatchIdx] at h
    split at h
    · cases h
      simp
    · rcases hm : findMatchIdx ls with _ | i'
      · rw [hm] at h
        simp at h
      · rw [hm] at h
        simp only [Option.map_some'] at h
        cases h
        simpa using Nat.succ_lt_succ (ih i' hm)

theorem findMatchIdx_getD (ls : List (List Char)) (i : Nat)
    (h : findMatchIdx ls = some i) :
    pyContains matchLiteral (ls.getD i []) = true := by
  induction ls generalizing i with
  | nil => simp [findMatchIdx] at h
  | cons l ls ih =>
    simp only [findMatchIdx] at h
    split at h
    · cases h
      simpa [List.getD_cons_zero]
    · rcases hm : findMatchIdx ls with _ | i'
      · rw [hm] at h
        simp at h
      · rw [hm] at h
        simp only [Option.map_some'] at h
        cases h
        rw [List.getD_cons_succ]
        exact ih i' hm

theorem findMatchIdx_first (ls : List (List Char)) (i : Nat) (h : i < ls.length)
    (hc : pyContains matchLiteral (ls.getD i []) = true)
    (hfirst : ∀ j, j < i → pyContains matchLiteral (ls.getD j []) = false) :
    findMatchIdx ls = some i := by
  induction ls generalizing i with
  | nil => simp at h
  | cons l ls ih =>
    cases i with
    | zero =>
      rw [List.getD_cons_zero] at hc
      simp [findMatchIdx, hc]
    | succ i' =>
      have hl : pyContains matchLiteral l = false := by
        have := hfirst 0 (Nat.succ_pos i')
        rwa [List.getD_cons_zero] at this
      rw [List.getD_cons_succ] at hc
      have hfirst' : ∀ j, j < i' → pyContains matchLiteral (ls.getD j []) = false := by
        intro j hj
        have := hfirst (j + 1) (Nat.succ_lt_succ hj)
        rwa [List.getD_cons_succ] at this
      have hlen : i' < ls.length := Nat.lt_of_succ_lt_succ (by simpa using h)
      simp [findMatchIdx, hl, ih i' hlen hc hfirst']

theorem findMatchIdx_none (ls : List (List Char))
    (h : ∀ l ∈ ls, pyContains matchLiteral l = false) :
    findMatchIdx ls = none := by
  induction ls with
  | nil => rfl
  | cons l ls ih =>
    have hl := h l (List.mem_cons_self l ls)
    have hrest : ∀ l' ∈ ls, pyContains matchLiteral l' = false :=
      fun l' hl' => h l' (List.mem_cons_of_mem l hl')
    simp [findMatchIdx, hl, ih hrest]

theorem findMatchIdx_take (ls : List (List Char)) (i : Nat)
    (h : findMatchIdx ls = some i) :
    ∀ l ∈ ls.take i, pyContains matchLiteral l = false := by
  induction ls generalizing i with
  | nil => simp
  | cons l ls ih =>
    simp only [findMatchIdx] at h
    split at h
    · cases h
      simp
    · rcases hm : findMatchIdx ls with _ | i'
      · rw [hm] at h
        simp at h
      · rw [hm] at h
        simp only [Option.map_some'] at h
        cases h
        intro s hs
        rcases List.mem_cons.mp (by simpa [List.take] using hs) with h' | h'
        · subst h'
          simpa using ‹¬pyContains matchLiteral s = true›
        · exact ih i' hm s h'

theorem patchLines_of_none (ls : List (List Char)) (h : findMatchIdx ls = none) :
    patchLines ls = ls := by
  simp [patchLines, h]

theorem patchLines_of_some (ls : List (List Char)) (i : Nat)
    (h : findMatchIdx ls = some i) :
    patchLines ls = ls.take i ++
      insertionLiteral1 :: insertionLiteral2 :: replacementLiteral :: ls.drop (i + 1) := by
  induction ls generalizing i with
  | nil => simp [findMatchIdx] at h
  | cons l ls ih =>
    have hfix := h
    simp only [findMatchIdx] at h
    split at h
    · cases h
      simp only [patchLines, hfix, List.insertIdx_zero, List.insertIdx_succ_cons,
        List.set_cons_succ, List.set_cons_zero, List.take_zero, List.drop_succ_cons,
        List.drop_zero, List.nil_append]
    · rcases hm : findMatchIdx ls with _ | i'
      · rw [hm] at h
        simp at h
      · rw [hm] at h
        simp only [Option.map_some'] at h
        cases h
        have hrec := ih i' hm
        simp only [patchLines, hfix, hm] at hrec ⊢
        simp only [List.insertIdx_succ_cons, List.set_cons_succ, List.take_succ_cons,
          List.drop_succ_cons, List.cons_append]
        rw [hrec]

theorem patchLines_cons_of_match (l : List Char) (ls : List (List Char))
    (h : pyContains matchLiteral l = true) :
    patchLines (l :: ls) =
      insertionLiteral1 :: insertionLiteral2 :: replacementLiteral :: ls := by
  have hm : findMatchIdx (l :: ls) = some 0 := by simp [findMatchIdx, h]
  simpa using patchLines_of_some (l :: ls) 0 hm

theorem patchLines_cons_of_not (l : List Char) (ls : List (List Char))
    (h : pyContains matchLiteral l = false) :
    patchLines (l :: ls) = l :: patchLines ls := by
  rcases hm : findMatchIdx ls with _ | i
  · have hn : findMatchIdx (l :: ls) = none := by simp [findMatchIdx, h, hm]
    rw [patchLines_of_none _ hn, patchLines_of_none _ hm]
  · have hs : findMatchIdx (l :: ls) = some (i + 1) := by simp [findMatchIdx, h, hm]
    rw [patchLines_of_some _ _ hs, patchLines_of_some _ _ hm]
    simp [List.take_succ_cons, List.drop_succ_cons]

theorem patchLines_getD_after (ls : List (List Char)) (i k : Nat)
    (hm : findMatchIdx ls = some i) (hik : i < k) :
    (patchLines ls).getD (k + 2) [] = ls.getD k [] := by
  induction ls generalizing i k with
  | nil => simp [findMatchIdx] at hm
  | cons l ls ih =>
    by_cases hl : pyContains matchLiteral l = true
    · rw [patchLines_cons_of_match _ _ hl]
      cases k with
      | zero =>
        have h0 : findMatchIdx (l :: ls) = some 0 := by simp [findMatchIdx, hl]
        rw [h0] at hm
        cases hm
        omega
      | succ k' =>
        simp [List.getD_cons_succ]
    · have hlf : pyContains matchLiteral l = false := by simpa using hl
      rcases hms : findMatchIdx ls with _ | i'
      · have hn : findMatchIdx (l :: ls) = none := by simp [findMatchIdx, hlf, hms]
        rw [hn] at hm
        cases hm
      · have hs : findMatchIdx (l :: ls) = some (i' + 1) := by
          simp [findMatchIdx, hlf, hms]
        rw [hs] at hm
        cases hm
        rw [patchLines_cons_of_not _ _ hlf]
        cases k with
        | zero => omega
        | succ k' =>
          simp only [List.getD_cons_succ]
          exact ih i' k' hms (by omega)

theorem countP_drop_eq_zero (ls : List (List Char)) (i : Nat)
    (hm : findMatchIdx ls = some i)
    (hcnt : ls.countP (fun l => pyContains matchLiteral l) ≤ 1) :
    ∀ l ∈ ls.drop (i + 1), pyContains matchLiteral l = false := by
  have hlen := findMatchIdx_lt_length ls i hm
  have hget := findMatchIdx_getD ls i hm
  have htake := findMatchIdx_take ls i hm
  have h0 : (ls.take i).countP (fun l => pyContains matchLiteral l) = 0 :=
    List.countP_eq_zero.mpr (by intro a ha; simpa using htake a ha)
  have hgetE : pyContains matchLiteral ls[i] = true := by
    rwa [List.getD_eq_getElem ls [] hlen] at hget
  have hsum : ls.countP (fun l => pyContains matchLiteral l) =
      (ls.drop (i + 1)).countP (fun l => pyContains matchLiteral l) + 1 := by
    conv_lhs => rw [← List.take_append_drop i ls]
    rw [List.countP_append, List.drop_eq_getElem_cons hlen, List.countP_cons, h0, hgetE]
    simp
  have hz : (ls.drop (i + 1)).countP (fun l => pyContains matchLiteral l) = 0 := by
    omega
  intro l hl
  simpa using List.countP_eq_zero.mp hz l hl

/-! ## Helper for the insertion bounds -/

theorem double_insertIdx (ls : List (List Char)) (i : Nat) (h : i ≤ ls.length) :
    (ls.insertIdx i insertionLiteral1).insertIdx (i + 1) insertionLiteral2 =
      ls.take i ++ insertionLiteral1 :: insertionLiteral2 :: ls.drop i := by
  induction ls generalizing i with
  | nil =>
    have : i = 0 := Nat.le_zero.mp h
    subst this
    simp [List.insertIdx_zero, List.insertIdx_succ_cons]
  | cons l ls ih =>
    cases i with
    | zero => simp [List.insertIdx_zero, List.insertIdx_succ_cons]
    | succ i' =>
      have h' : i' ≤ ls.length := Nat.le_of_succ_le_succ (by simpa using h)
      simp only [List.insertIdx_succ_cons, List.take_succ_cons, List.drop_succ_cons,
        List.cons_append]
      rw [ih i' h']

/-! ## Claims -/

/-- Input of the counterexample to claim C1: an earlier line that merely
contains the match literal (with a leading character), followed by a line
exactly equal to it. -/
def c1CexInput : List (List Char) := [('x' :: matchLiteral), matchLiteral]

/-- Claim C1 as stated is false: in a file whose line sequence contains
exactly one line equal to MatchLiteral (here at index 1), the scan can
still fire at an earlier line that merely contains the literal, so the
insertions do not land immediately before the equal line's position. -/
theorem C1_counterexample :
    List.count matchLiteral c1CexInput = 1 ∧
    c1CexInput.getD 1 [] = matchLiteral ∧
    patchLines c1CexInput =
      [insertionLiteral1, insertionLiteral2, replacementLiteral, matchLiteral] ∧
    patchLines c1CexInput ≠
      c1CexInput.take 1 ++ insertionLiteral1 :: insertionLiteral2 ::
        replacementLiteral :: c1CexInput.drop 2 := by
  refine ⟨by decide, by decide, by decide, by decide⟩

/-- Claim C1 (amended): for every line sequence with exactly one line
containing MatchLiteral as a substring, after the patch the two
InsertionLiterals appear immediately before that line's former position,
the line at the following position is ReplacementLiteral (the original
matched line's text is gone), and every other line is unchanged and
retains its relative order. -/
theorem C1_patch_at_unique_containing_line (ls : List (List Char)) (i : Nat)
    (h : i < ls.length)
    (hc : pyContains matchLiteral (ls.getD i []) = true)
    (huniq : ∀ j, j < ls.length → j ≠ i →
      pyContains matchLiteral (ls.getD j []) = false) :
    patchLines ls = ls.take i ++ insertionLiteral1 :: insertionLiteral2 ::
      replacementLiteral :: ls.drop (i + 1) := by
  have hfirst : ∀ j, j < i → pyContains matchLiteral (ls.getD j []) = false :=
    fun j hj => huniq j (Nat.lt_trans hj h) (Nat.ne_of_lt hj)
  exact patchLines_of_some ls i (findMatchIdx_first ls i h hc hfirst)

/-- Witness for C1's amended theorem at a concrete two-line file. -/
theorem C1_witness :
    patchLines ["ab".toList, matchLiteral] =
      (["ab".toList, matchLiteral]).take 1 ++ insertionLiteral1 ::
        insertionLiteral2 :: replacementLiteral ::
        (["ab".toList, matchLiteral]).drop 2 :=
  C1_patch_at_unique_containing_line ["ab".toList, matchLiteral] 1
    (by decide) (by decide) (by decide)

/-- A line that contains the match literal together with leading text. -/
def c2CexLine : List Char := ' ' :: ' ' :: matchLiteral

/-- Claim C2 as stated is false: the scan uses substring containment, so
a line that merely contains MatchLiteral together with other text (here
two leading spaces) IS selected as the patch site. -/
theorem C2_counterexample :
    c2CexLine ≠ matchLiteral ∧
    pyContains matchLiteral c2CexLine = true ∧
    findMatchIdx [c2CexLine] = some 0 := by
  refine ⟨by decide, by decide, by decide⟩

/-- Claim C2 (amended): for every input file, the scan selects the first
index whose line contains MatchLiteral as a substring (Python's in
operator; no trimming, no case-folding, but also no exact-equality
requirement). -/
theorem C2_first_containing_selected (ls : List (List Char)) (i : Nat)
    (h : i < ls.length)
    (hc : pyContains matchLiteral (ls.getD i []) = true)
    (hfirst : ∀ j, j < i → pyContains matchLiteral (ls.getD j []) = false) :
    findMatchIdx ls = some i :=
  findMatchIdx_first ls i h hc hfirst

/-- Witness for C2's amended theorem at a concrete two-line file whose
second line contains the literal with surrounding text. -/
theorem C2_witness :
    findMatchIdx ["q".toList, ('x' :: matchLiteral)] = some 1 :=
  C2_first_containing_selected ["q".toList, ('x' :: matchLiteral)] 1
    (by decide) (by decide) (by decide)

/-- The input of the concrete scenario of claim C3. -/
def c3Input : List (List Char) := ["a".toList, matchLiteral, "b".toList]

/-- The output the claim C3 predicts: inserted and replacement lines
without leading indentation. -/
def c3ClaimedOutput : List (List Char) :=
  ["a".toList,
   "// Clean up potential spacing in month names".toList,
   "month = month.replace(/\\s+/g, '').toLowerCase();".toList,
   "const monthNum = months[month] || '01';".toList,
   "b".toList]

/-- The output the script actually produces: the same three lines but
each carrying the six-space indentation hard-coded in the script. -/
def c3ActualOutput : List (List Char) :=
  ["a".toList, insertionLiteral1, insertionLiteral2, replacementLiteral, "b".toList]

/-- Claim C3 as stated is false: the predicted line sequence omits the
six leading spaces that the script's inserted and replacement literals
carry. -/
theorem C3_counterexample : patchLines c3Input ≠ c3ClaimedOutput := by decide

/-- Claim C3 (amended): on the concrete input the script produces the
claimed lines, each prefixed with the six-space indentation present in
the script's literals. -/
theorem C3_concrete_scenario : patchLines c3Input = c3ActualOutput := by decide

/-- Content of the counterexample to claim C4: a single line that
contains the match literal followed by one extra character, hence zero
lines exactly equal to MatchLiteral. -/
def c4CexContent : List Char := matchLiteral ++ [' ']

/-- Claim C4 as stated is false: a file with zero lines equal to
MatchLiteral can still be modified, because the scan matches by
substring containment. -/
theorem C4_counterexample :
    (∀ l ∈ splitLines c4CexContent, l ≠ matchLiteral) ∧
    rewriteContent c4CexContent ≠ c4CexContent := by
  refine ⟨by decide, by decide⟩

/-- Claim C4 (amended): for every file none of whose lines contains
MatchLiteral as a substring, the run leaves the file's content unchanged
and still reports success. -/
theorem C4_no_containing_line_no_op (w : World) (content : List Char)
    (hf : w.file = some content) (hw : w.writeFault = none)
    (hnc : ∀ l ∈ splitLines content, pyContains matchLiteral l = false) :
    (fix_date_parsing w).world.file = some content ∧
    (fix_date_parsing w).ret = true := by
  have hn : findMatchIdx (splitLines content) = none := findMatchIdx_none _ hnc
  have hrw : rewriteContent content = content := by
    rw [rewriteContent, patchLines_of_none _ hn, joinLines_splitLines]
  simp [fix_date_parsing, hf, hw, hrw]

/-- Witness for C4's amended theorem at a concrete two-line file. -/
theorem C4_witness :
    (fix_date_parsing ⟨some ("ab\ncd".toList), [], none⟩).world.file =
      some ("ab\ncd".toList) ∧
    (fix_date_parsing ⟨some ("ab\ncd".toList), [], none⟩).ret = true :=
  C4_no_containing_line_no_op ⟨some ("ab\ncd".toList), [], none⟩ ("ab\ncd".toList)
    rfl rfl (by decide)

/-- Claim C5: at most one patch site is modified per run; when the
literal occurs in the lines at two distinct indices i < j (i being the
first occurrence), the patch applies at i — the rest of the sequence,
including the later occurrence (now shifted two positions down), is
untouched. -/
theorem C5_only_first_occurrence_patched (ls : List (List Char)) (i j : Nat)
    (hij : i < j) (hj : j < ls.length)
    (hci : pyContains matchLiteral (ls.getD i []) = true)
    (hfirst : ∀ k, k < i → pyContains matchLiteral (ls.getD k []) = false)
    (hcj : pyContains matchLiteral (ls.getD j []) = true) :
    patchLines ls = ls.take i ++ insertionLiteral1 :: insertionLiteral2 ::
        replacementLiteral :: ls.drop (i + 1) ∧
    (patchLines ls).getD (j + 2) [] = ls.getD j [] := by
  have hi : i < ls.length := Nat.lt_trans hij hj
  have hm : findMatchIdx ls = some i := findMatchIdx_first ls i hi hci hfirst
  exact ⟨patchLines_of_some ls i hm, patchLines_getD_after ls i j hm hij⟩

/-- Witness for C5 at a concrete file with two occurrences of the
literal. -/
theorem C5_witness :
    patchLines [matchLiteral, matchLiteral] =
      ([matchLiteral, matchLiteral]).take 0 ++ insertionLiteral1 ::
        insertionLiteral2 :: replacementLiteral ::
        ([matchLiteral, matchLiteral]).drop 1 ∧
    (patchLines [matchLiteral, matchLiteral]).getD 3 [] =
      ([matchLiteral, matchLiteral]).getD 1 [] :=
  C5_only_first_occurrence_patched [matchLiteral, matchLiteral] 0 1
    (by decide) (by decide) (by decide) (by decide) (by decide)

/-- Claim C6: the run returns true exactly when read and write both
complete without a raised fault — regardless of whether a match was
found; on any fault a human-readable message (the fixed context followed
by the exception text) is printed and the run returns false; the process
exit status is 0 when the result is true and 1 when it is false. -/
theorem C6_result_iff_no_fault (w : World) :
    ((fix_date_parsing w).ret = true ↔
      w.file.isSome = true ∧ w.writeFault = none) ∧
    ((fix_date_parsing w).ret = false →
      ∃ e, (fix_date_parsing w).printed = errorMessageOf e) ∧
    ((fix_date_parsing w).ret = true → mainExitCode w = 0) ∧
    ((fix_date_parsing w).ret = false → mainExitCode w = 1) := by
  obtain ⟨f, r, wf⟩ := w
  cases f with
  | none =>
    cases wf <;> simp [fix_date_parsing, mainExitCode]
  | some c =>
    cases wf with
    | none => simp [fix_date_parsing, mainExitCode]
    | some e => simp [fix_date_parsing, mainExitCode]

/-- Witness for C6 at a concrete world whose write faults: exit code 1
and an error line. -/
theorem C6_witness :
    mainExitCode ⟨some ("x".toList), [], some ("df".toList)⟩ = 1 ∧
    ∃ e, (fix_date_parsing ⟨some ("x".toList), [], some ("df".toList)⟩).printed =
      errorMessageOf e := by
  have h := C6_result_iff_no_fault ⟨some ("x".toList), [], some ("df".toList)⟩
  have hret : (fix_date_parsing
      ⟨some ("x".toList), [], some ("df".toList)⟩).ret = false := by
    refine Bool.eq_false_iff.mpr fun hb => ?_
    have h2 := h.1.mp hb
    exact absurd h2.2 (by simp)
  exact ⟨h.2.2.2 hret, h.2.1 hret⟩

/-- Claim C7: when the open-for-read raises (nonexistent or
permission-denied path), the run reports failure, the exit code is 1,
and the world is untouched — the write is never attempted, so no file is
created at the path as a side effect. -/
theorem C7_read_fault_no_write (w : World) (h : w.file = none) :
    (fix_date_parsing w).ret = false ∧ mainExitCode w = 1 ∧
    (fix_date_parsing w).world = w := by
  simp [fix_date_parsing, mainExitCode, h]

/-- Witness for C7 at a concrete world with no readable file. -/
theorem C7_witness :
    (fix_date_parsing ⟨none, ("No such file".toList), none⟩).ret = false ∧
    mainExitCode ⟨none, ("No such file".toList), none⟩ = 1 ∧
    (fix_date_parsing ⟨none, ("No such file".toList), none⟩).world =
      ⟨none, ("No such file".toList), none⟩ :=
  C7_read_fault_no_write ⟨none, ("No such file".toList), none⟩ rfl

/-- Content with the match literal occurring in two distinct lines. -/
def c8Content : List Char := matchLiteral ++ '\n' :: matchLiteral

/-- Claim C8 as stated is false on files where the literal occurs in
more than one line: the first run patches only the first occurrence, so
the second run still finds (and patches) the second occurrence — the
double application differs from the single one. -/
theorem C8_counterexample :
    rewriteContent (rewriteContent c8Content) ≠ rewriteContent c8Content := by
  decide

/-- Claim C8 (amended): on any input file in which at most one line
contains MatchLiteral, a second run does not re-match (the patched
output no longer holds the literal), so it rewrites the file with
unchanged content: the transformation composed with itself equals a
single application. -/
theorem C8_second_run_no_op (content : List Char)
    (hcnt : (splitLines content).countP
      (fun l => pyContains matchLiteral l) ≤ 1) :
    rewriteContent (rewriteContent content) = rewriteContent content := by
  rcases hm : findMatchIdx (splitLines content) with _ | i
  · have h1 : rewriteContent content = content := by
      rw [rewriteContent, patchLines_of_none _ hm, joinLines_splitLines]
    rw [h1]
    exact h1
  · have hpatched := patchLines_of_some (splitLines content) i hm
    have hne : patchLines (splitLines content) ≠ [] := by
      rw [hpatched]
      simp
    have hnl : ∀ s ∈ patchLines (splitLines content), '\n' ∉ s := by
      rw [hpatched]
      intro s hs
      rcases List.mem_append.mp hs with h | h
      · exact mem_splitLines_not_newline content s (List.take_subset i _ h)
      · rcases List.mem_cons.mp h with h | h
        · subst h
          decide
        · rcases List.mem_cons.mp h with h | h
          · subst h
            decide
          · rcases List.mem_cons.mp h with h | h
            · subst h
              decide
            · exact mem_splitLines_not_newline content s
                (List.drop_subset (i + 1) _ h)
    have hsplit2 : splitLines (joinLines (patchLines (splitLines content))) =
        patchLines (splitLines content) :=
      splitLines_joinLines _ hne hnl
    have hnomatch : findMatchIdx (patchLines (splitLines content)) = none := by
      apply findMatchIdx_none
      rw [hpatched]
      intro l hl
      rcases List.mem_append.mp hl with h | h
      · exact findMatchIdx_take _ i hm l h
      · rcases List.mem_cons.mp h with h | h
        · subst h
          decide
        · rcases List.mem_cons.mp h with h | h
          · subst h
            decide
          · rcases List.mem_cons.mp h with h | h
            · subst h
              decide
            · exact countP_drop_eq_zero _ i hm hcnt l h
    calc rewriteContent (rewriteContent content)
        = joinLines (patchLines (splitLines
            (joinLines (patchLines (splitLines content))))) := rfl
      _ = joinLines (patchLines (patchLines (splitLines content))) := by
            rw [hsplit2]
      _ = joinLines (patchLines (splitLines content)) := by
            rw [patchLines_of_none _ hnomatch]
      _ = rewriteContent content := rfl

/-- Witness for C8's amended theorem at a concrete content with exactly
one containing line. -/
theorem C8_witness :
    rewriteContent (rewriteContent ("ab\n".toList ++ matchLiteral)) =
      rewriteContent ("ab\n".toList ++ matchLiteral) :=
  C8_second_run_no_op ("ab\n".toList ++ matchLiteral) (by decide)

/-- Raw on-disk bytes ending in a carriage-return line feed. -/
def c9Raw : List Char := "a\r\n".toList

/-- Claim C9: the read-decode-rewrite round trip does not guarantee byte
preservation of a trailing line-break: there is an unmatched input
ending in a line-break whose rewritten content differs from the original
(the carriage return of its trailing CRLF is normalized away by the
text-mode read before the join-on-write). -/
theorem C9_trailing_newline_not_preserved :
    ∃ raw : List Char,
      (∀ l ∈ splitLines (pyDecode raw), pyContains matchLiteral l = false) ∧
      raw.getLast? = some '\n' ∧
      rewriteRaw raw ≠ raw :=
  ⟨c9Raw, by refine ⟨by decide, by decide, by decide⟩⟩

/-- Claim C10: the patch step never accesses an out-of-bounds index:
whenever the scan finds a match at index i, i is within the original
list, and after the two insertions the overwritten index i + 2 is within
the lengthened list and holds the original matched line — even when the
matched line is the last line of the file. -/
theorem C10_overwrite_in_bounds (ls : List (List Char)) (i : Nat)
    (hm : findMatchIdx ls = some i) :
    i < ls.length ∧
    i + 2 < ((ls.insertIdx i insertionLiteral1).insertIdx (i + 1)
      insertionLiteral2).length ∧
    ((ls.insertIdx i insertionLiteral1).insertIdx (i + 1)
      insertionLiteral2).getD (i + 2) [] = ls.getD i [] := by
  have h1 : i < ls.length := findMatchIdx_lt_length ls i hm
  have hle : i ≤ ls.length := Nat.le_of_lt h1
  have hform := double_insertIdx ls i hle
  refine ⟨h1, ?_, ?_⟩
  · rw [hform]
    simp only [List.length_append, List.length_take, List.length_cons,
      List.length_drop]
    omega
  · rw [hform]
    have hlt : (ls.take i).length ≤ i + 2 := by
      simp only [List.length_take]
      omega
    rw [List.getD_append_right _ _ _ _ hlt]
    have hidx : i + 2 - (ls.take i).length = 2 := by
      simp only [List.length_take]
      omega
    rw [hidx, List.getD_cons_succ, List.getD_cons_succ,
      List.drop_eq_getElem_cons h1, List.getD_cons_zero,
      List.getD_eq_getElem ls [] h1]

/-- Witness for C10 where the matched line is the last line of the
file. -/
theorem C10_witness :
    0 < ([matchLiteral]).length ∧
    0 + 2 < ((([matchLiteral]).insertIdx 0 insertionLiteral1).insertIdx (0 + 1)
      insertionLiteral2).length ∧
    ((([matchLiteral]).insertIdx 0 insertionLiteral1).insertIdx (0 + 1)
      insertionLiteral2).getD (0 + 2) [] = ([matchLiteral]).getD 0 [] :=
  C10_overwrite_in_bounds [matchLiteral] 0 (by decide)
